import Mathlib

/-!
Shallow embedding of the prettier-plugin-mp formatter sources.

The embedding covers `src/parser.js` (final `@wxml/parser`-based version: the
text-protection pass and the restoration pass) and `src/printer.js` (final
version: ignore-range construction, the layout decision engine and the
embedded-script delegate).  JavaScript strings are modelled as lists of
characters; regex-driven loops are modelled as explicit left-to-right scanners
that mirror the exact backtracking behaviour of the concrete patterns used in
the source.  Scanners that advance by a data-dependent amount take an explicit
fuel argument; every wrapper passes `length + 1`, which is enough fuel for the
whole input, so the fuel never runs out and the definitions compute by `rfl`.
-/

abbrev Str := List Char

def js (s : String) : Str := s.data

def lbrace : Char := Char.ofNat 123

def rbrace : Char := Char.ofNat 125

def squote : Char := Char.ofNat 39

def dquote : Char := Char.ofNat 34

def twoLbrace : Str := [lbrace, lbrace]

def twoRbrace : Str := [rbrace, rbrace]

/-- ASCII part of the JavaScript whitespace class used by `\s` and `trim`. -/
def isJsWs (c : Char) : Bool :=
  c = ' ' || c = Char.ofNat 9 || c = Char.ofNat 10 || c = Char.ofNat 13 ||
  c = Char.ofNat 11 || c = Char.ofNat 12

/-- JavaScript `String.prototype.trim` (ASCII whitespace). -/
def jsTrim (s : Str) : Str := ((s.dropWhile isJsWs).reverse.dropWhile isJsWs).reverse

/-- JavaScript `String.prototype.trimEnd` (ASCII whitespace). -/
def jsTrimEnd (s : Str) : Str := (s.reverse.dropWhile isJsWs).reverse

/-- JavaScript `String.prototype.includes` (substring test). -/
def strIncludes : Str → Str → Bool
  | [], pat => pat.isPrefixOf ([] : Str)
  | s@(_ :: t), pat => pat.isPrefixOf s || strIncludes t pat

/-- Split a string around the first occurrence of `pat`; `none` when absent. -/
def splitFirst : Str → Str → Option (Str × Str)
  | [], pat => if pat = [] then some ([], []) else none
  | s@(c :: t), pat =>
    if pat.isPrefixOf s then some ([], s.drop pat.length)
    else
      match splitFirst t pat with
      | some (p, q) => some (c :: p, q)
      | none => none

/-- Fuelled core of JavaScript `String.prototype.replaceAll` with a literal
pattern.  Every call site passes a non-empty pattern; the `pat ≠ []` guard only
keeps the function total on degenerate inputs. -/
def replaceAllF : Nat → Str → Str → Str → Str
  | 0, s, _, _ => s
  | f + 1, s, pat, rep =>
    if pat ≠ [] ∧ pat.isPrefixOf s then rep ++ replaceAllF f (s.drop pat.length) pat rep
    else
      match s with
      | [] => []
      | c :: t => c :: replaceAllF f t pat rep

def replaceAll (s pat rep : Str) : Str := replaceAllF (s.length + 1) s pat rep

/-- JavaScript `String.prototype.split` on a single separator character. -/
def splitOnChar (sep : Char) : Str → List Str
  | [] => [[]]
  | c :: t =>
    match splitOnChar sep t with
    | [] => [[c]]
    | h :: rest => if c = sep then [] :: h :: rest else (c :: h) :: rest

def joinChar (sep : Char) (parts : List Str) : Str := List.intercalate [sep] parts

def natStr (n : Nat) : Str := (Nat.repr n).data

/-! Section: Text protection pass (src/parser.js, final version) -/

/-- One record pushed onto `protectedItems` during the protection pass. -/
structure ProtectedItem where
  placeholder : Str
  content : Str
  type : Str
deriving DecidableEq, Repr

def WXS_CONTENT : Str := js ("WXS_CONTENT")

def TEMPLATE_EXPR : Str := js ("TEMPLATE_EXPR")

def wxsPlaceholder (n : Nat) : Str := js ("__WXS_CONTENT_") ++ natStr n ++ js ("__")

def templatePlaceholder (n : Nat) : Str := js ("__TEMPLATE_EXPR_") ++ natStr n ++ js ("__")

/-- Fuelled scanner for `protectWxsContent`: the global replace of
`(<wxs[^>]*>)([\s\S]*?)(<\/wxs>)`.  At each position it either consumes a whole
match (open tag up to the first `>`, then lazily up to the first `</wxs>`) or
emits one character and advances. -/
def protectWxsGoF : Nat → Str → Nat → Str × List ProtectedItem
  | 0, s, _ => (s, [])
  | _ + 1, [], _ => ([], [])
  | f + 1, s@(c :: t), idx =>
    if (js ("<wxs")).isPrefixOf s then
      let afterOpen := s.drop 4
      let tagBody := afterOpen.takeWhile (fun ch => ch ≠ '>')
      let afterBody := afterOpen.drop tagBody.length
      if afterBody.head? = some '>' then
        match splitFirst (afterBody.drop 1) (js ("</wxs>")) with
        | some (content, post) =>
          let placeholder := wxsPlaceholder idx
          let openTag := js ("<wxs") ++ tagBody ++ ['>']
          let rec2 := protectWxsGoF f post (idx + 1)
          (openTag ++ placeholder ++ js ("</wxs>") ++ rec2.1,
           { placeholder := placeholder, content := jsTrim content, type := WXS_CONTENT } :: rec2.2)
        | none =>
          let rec2 := protectWxsGoF f t idx
          (c :: rec2.1, rec2.2)
      else
        let rec2 := protectWxsGoF f t idx
        (c :: rec2.1, rec2.2)
    else
      let rec2 := protectWxsGoF f t idx
      (c :: rec2.1, rec2.2)

def protectWxsContent (s : Str) : Str × List ProtectedItem :=
  protectWxsGoF (s.length + 1) s 0

/-- Fuelled scanner for `protectTemplateExpressions`: the global replace of
`\{\{([^}]+)\}\}`.  A match needs `{{`, a non-empty run of characters other
than `}`, and then `}}` immediately after the run; on failure the scanner
advances one character, as the regex engine does. -/
def protectTemplateGoF : Nat → Str → Nat → Str × List ProtectedItem
  | 0, s, _ => (s, [])
  | _ + 1, [], _ => ([], [])
  | f + 1, c :: t, idx =>
    if c = lbrace ∧ t.head? = some lbrace then
      let rest := t.drop 1
      let body := rest.takeWhile (fun ch => ch ≠ rbrace)
      let after := rest.drop body.length
      if body ≠ [] ∧ after.head? = some rbrace ∧ (after.drop 1).head? = some rbrace then
        let placeholder := templatePlaceholder idx
        let rec2 := protectTemplateGoF f (after.drop 2) (idx + 1)
        (placeholder ++ rec2.1,
         { placeholder := placeholder, content := body, type := TEMPLATE_EXPR } :: rec2.2)
      else
        let rec2 := protectTemplateGoF f t idx
        (c :: rec2.1, rec2.2)
    else
      let rec2 := protectTemplateGoF f t idx
      (c :: rec2.1, rec2.2)

def protectTemplateExpressions (s : Str) : Str × List ProtectedItem :=
  protectTemplateGoF (s.length + 1) s 0

/-- Source `preprocessText`: wxs bodies are protected first, template expressions
second; the two item lists are pushed onto one array in that order. -/
def preprocessText (s : Str) : Str × List ProtectedItem :=
  let w := protectWxsContent s
  let t := protectTemplateExpressions w.1
  (t.1, w.2 ++ t.2)

/-- Source `restoreStringProperty`: one in-order pass over `protectedItems`, replacing
all occurrences of each placeholder that is present at that moment. -/
def restoreStringProperty (str : Str) (protectedItems : List ProtectedItem) : Str :=
  if str = [] then str
  else
    protectedItems.foldl
      (fun s it =>
        if strIncludes s it.placeholder then
          if it.type = WXS_CONTENT then replaceAll s it.placeholder it.content
          else if it.type = TEMPLATE_EXPR then
            replaceAll s it.placeholder (twoLbrace ++ it.content ++ twoRbrace)
          else s
        else s)
      str

/-- Source `restoreAttributeValue`: same algorithm as `restoreStringProperty`, used
for the `value`/`rawValue` fields during tree restoration. -/
def restoreAttributeValue (value : Str) (protectedItems : List ProtectedItem) : Str :=
  if value = [] then value
  else
    protectedItems.foldl
      (fun s it =>
        if strIncludes s it.placeholder then
          if it.type = WXS_CONTENT then replaceAll s it.placeholder it.content
          else if it.type = TEMPLATE_EXPR then
            replaceAll s it.placeholder (twoLbrace ++ it.content ++ twoRbrace)
          else s
        else s)
      value

/-! Section: Ignore-range construction (src/printer.js, final version) -/

/-- A comment token as collected from the lexer token vector.  In the source
the `|| 0` fallbacks on the offsets are identities for present numeric
offsets, which is the only case the lexer produces. -/
structure CommentTok where
  image : Str
  startOffset : Nat
  endOffset : Nat
deriving DecidableEq, Repr

structure IgnoreRange where
  rstart : Nat
  rend : Nat
deriving DecidableEq, Repr

def ignoreStartComment : Str := js ("<!-- prettier-ignore-start -->")

def ignoreEndComment : Str := js ("<!-- prettier-ignore-end -->")

/-- Stable insertion of one token into a list sorted by `startOffset`. -/
def insertByStart (c : CommentTok) : List CommentTok → List CommentTok
  | [] => [c]
  | d :: rest =>
    if c.startOffset ≤ d.startOffset then c :: d :: rest else d :: insertByStart c rest

/-- The `commentSource.sort((l, r) => l.startOffset - r.startOffset)` call:
a stable sort by start offset. -/
def sortByStartOffset (l : List CommentTok) : List CommentTok :=
  l.foldr insertByStart []

/-- The pairing loop of `buildIgnoreRanges`: a start sentinel (re)opens the
pending start, an end sentinel with an open start pushes a range and closes
it, every other comment is skipped. -/
def buildIgnoreRangesGo : List CommentTok → Option Nat → List IgnoreRange
  | [], _ => []
  | c :: rest, pending =>
    if c.image = ignoreStartComment then buildIgnoreRangesGo rest (some c.startOffset)
    else
      match pending with
      | some s =>
        if c.image = ignoreEndComment then
          { rstart := s, rend := c.endOffset } :: buildIgnoreRangesGo rest none
        else buildIgnoreRangesGo rest (some s)
      | none => buildIgnoreRangesGo rest none

def buildIgnoreRanges (comments : List CommentTok) : List IgnoreRange :=
  buildIgnoreRangesGo (sortByStartOffset comments) none

/-! Section: Format options and the document model (src/printer.js) -/

/-- The recognized configuration fields read by the printer.  `Option` marks
fields the source checks for presence (`typeof x === 'number'`, `!== false`,
`typeof x === 'string'`); `wxmlSingleQuote` is read with `!!`/truthiness so a
plain `Bool` is faithful. -/
structure FormatOptions where
  wxmlPrintWidth : Option Nat := none
  printWidth : Option Nat := none
  wxmlSingleQuote : Bool := false
  wxmlPreferBreakTags : Option Str := none
  wxsSingleQuote : Option Bool := none
  wxsTabWidth : Option Nat := none
  tabWidth : Option Nat := none

/-- Source `(typeof opts.wxmlPrintWidth === 'number') ? opts.wxmlPrintWidth :
(opts.printWidth || 80)`. -/
def effectivePrintWidth (opts : FormatOptions) : Nat :=
  match opts.wxmlPrintWidth with
  | some w => w
  | none =>
    match opts.printWidth with
    | some w => if w = 0 then 80 else w
    | none => 80

/-- Source `typeof opts.wxsTabWidth === 'number' ? opts.wxsTabWidth :
(opts.tabWidth || 2)`. -/
def wxsIndentSize (opts : FormatOptions) : Nat :=
  match opts.wxsTabWidth with
  | some w => w
  | none =>
    match opts.tabWidth with
    | some w => if w = 0 then 2 else w
    | none => 2

/-- Source `opts.wxsSingleQuote !== false` (default true). -/
def wxsUseSingleQuote (opts : FormatOptions) : Bool :=
  opts.wxsSingleQuote ≠ some false

/-- The prettier document model, as used by the printer: strings, arrays of
parts, `group`, `indent`, and the line primitives. -/
inductive Doc where
  | textD (s : Str)
  | concat (parts : List Doc)
  | group (d : Doc)
  | indentD (d : Doc)
  | hardline
  | softline
  | line
deriving Repr

/-- Source `doc.builders.join(sep, docs)`. -/
def joinDocs (sep : Doc) (ds : List Doc) : Doc := Doc.concat (List.intersperse sep ds)

/-- The only falsy doc the printer can produce: the empty string.  This models
the `printed && printed !== ""` filters. -/
def isEmptyStringDoc : Doc → Bool
  | Doc.textD s => s = []
  | _ => false

/-! Section: Inline expression normalization (src/printer.js) -/

def isSpTab (c : Char) : Bool := c = ' ' || c = Char.ofNat 9

def isNlChar (c : Char) : Bool := c = Char.ofNat 10 || c = Char.ofNat 13

/-- Fuelled scanner for `expr.replace(/[ \t]*[\r\n]+[ \t]*/g, ' ')`. -/
def collapseNlF : Nat → Str → Str
  | 0, s => s
  | _ + 1, [] => []
  | f + 1, s@(c :: t) =>
    let a := s.takeWhile isSpTab
    let s1 := s.drop a.length
    let nl := s1.takeWhile isNlChar
    if nl ≠ [] then
      let s2 := s1.drop nl.length
      let b := s2.takeWhile isSpTab
      ' ' :: collapseNlF f (s2.drop b.length)
    else c :: collapseNlF f t

/-- Fuelled scanner for `s.replace(/\s*OP\s*/g, ' OP ')` with a two-character
operator `OP` (used for `&&` and `||`). -/
def spaceOpF (op : Str) : Nat → Str → Str
  | 0, s => s
  | _ + 1, [] => []
  | f + 1, s@(c :: t) =>
    let a := s.takeWhile isJsWs
    let s1 := s.drop a.length
    if op.isPrefixOf s1 then
      let s2 := s1.drop op.length
      let b := s2.takeWhile isJsWs
      (' ' :: op ++ [' ']) ++ spaceOpF op f (s2.drop b.length)
    else c :: spaceOpF op f t

def ampAmp : Str := ['&', '&']

def pipePipe : Str := ['|', '|']

/-- Source `formatInlineJsExpression`: collapse newlines to one space, normalize the
spacing around `&&` and `||`, then trim.  The JavaScript `opts` parameter is
unused in the source and omitted here. -/
def formatInlineJsExpression (expr : Str) : Str :=
  let s := collapseNlF (expr.length + 1) expr
  let s := spaceOpF ampAmp (s.length + 1) s
  let s := spaceOpF pipePipe (s.length + 1) s
  jsTrim s

/-- Fuelled scanner for the interpolation rewrite
`text.replace(/{{(\s*)([\s\S]*?)(\s*)}}/g, ...)`: at a `{{` with a later `}}`,
the leading whitespace is kept, the lazily-matched body is normalized, and the
trailing whitespace (the greedy `(\s*)` before the first `}}`) is kept. -/
def formatWxmlInterpolationsF : Nat → Str → Str
  | 0, s => s
  | _ + 1, [] => []
  | f + 1, c :: t =>
    if c = lbrace ∧ t.head? = some lbrace then
      match splitFirst (t.drop 1) twoRbrace with
      | some (pre, post) =>
        let lws := pre.takeWhile isJsWs
        let mid := pre.drop lws.length
        let k := (mid.reverse.takeWhile isJsWs).length
        let expr := mid.take (mid.length - k)
        let rws := mid.drop (mid.length - k)
        twoLbrace ++ lws ++ formatInlineJsExpression expr ++ rws ++ twoRbrace ++
          formatWxmlInterpolationsF f post
      | none => c :: formatWxmlInterpolationsF f t
    else c :: formatWxmlInterpolationsF f t

/-- Source `formatWxmlInterpolations` with its early return when the text holds no
`{{`.  The unused JavaScript `opts` parameter is omitted. -/
def formatWxmlInterpolations (text : Str) : Str :=
  if strIncludes text twoLbrace = false then text
  else formatWxmlInterpolationsF (text.length + 1) text

/-! Section: Attribute printing (src/printer.js) -/

/-- Source `normalizeAttrValueForWxmlQuotes` for a string value.  The `value == null`
guard of the source is handled at both call sites, which only pass strings. -/
def normalizeAttrValueForWxmlQuotes (value : Str) (opts : FormatOptions) : Str :=
  let isQuoted :=
    (value.head? = some dquote ∧ value.getLast? = some dquote) ∨
    (value.head? = some squote ∧ value.getLast? = some squote)
  if isQuoted then
    let quote := value.headD ' '
    let content := (value.drop 1).dropLast
    let content := formatWxmlInterpolations content
    let preferSingle := opts.wxmlSingleQuote
    if preferSingle ∧ content.contains squote = false then squote :: content ++ [squote]
    else if preferSingle = false ∧ content.contains dquote = false then
      dquote :: content ++ [dquote]
    else quote :: content ++ [quote]
  else
    let content := formatWxmlInterpolations value
    if opts.wxmlSingleQuote then squote :: content ++ [squote]
    else dquote :: content ++ [dquote]

/-- A byte span as carried by `node.location`. -/
structure Location where
  startOffset : Nat
  endOffset : Nat
deriving DecidableEq, Repr

structure WXAttributeNode where
  key : Str
  value : Option Str
  rawValue : Option Str
  location : Option Location := none
deriving DecidableEq, Repr

/-- Source `printAttribute`: boolean attributes (null value) print as the bare key;
otherwise `rawValue` is preferred over `value` and quote-normalized. -/
def printAttribute (opts : FormatOptions) (attr : WXAttributeNode) : Str :=
  match attr.value with
  | none => attr.key
  | some v =>
    let attributeValue :=
      match attr.rawValue with
      | some r => r
      | none => v
    attr.key ++ ('=' :: normalizeAttrValueForWxmlQuotes attributeValue opts)

def placeholderSymChars : List Char := ['=', '-', '_', '.', '~', '*']

/-- The `([=\-_.~*])\1{5,}` test: six or more repeated symbol characters. -/
def hasSymbolRun : Str → Bool
  | [] => false
  | c :: t =>
    (placeholderSymChars.contains c && 5 ≤ (t.takeWhile (fun d => d = c)).length) ||
    hasSymbolRun t

/-- Source `isPlaceholderLikeValue`: strip a matching pair of surrounding quotes,
then look for a long repeated-symbol run. -/
def isPlaceholderLikeValue (value : Option Str) : Bool :=
  match value with
  | none => false
  | some v =>
    let s :=
      if (v.head? = some dquote ∧ v.getLast? = some dquote) ∨
         (v.head? = some squote ∧ v.getLast? = some squote) then
        (v.drop 1).dropLast
      else v
    hasSymbolRun s

/-- Source `attr.rawValue != null ? attr.rawValue : attr.value`. -/
def rawOrValue (attr : WXAttributeNode) : Option Str :=
  match attr.rawValue with
  | some r => some r
  | none => attr.value

structure StartTagNode where
  name : Str
  attributes : List WXAttributeNode
  selfClosing : Bool
  location : Option Location := none
deriving DecidableEq, Repr

structure EndTagNode where
  name : Str
  location : Option Location := none
deriving DecidableEq, Repr

/-- The attribute doc strings of `printStartTag`. -/
def attrDocsOf (opts : FormatOptions) (st : StartTagNode) : List Str :=
  st.attributes.map (printAttribute opts)

/-- Source `attributeDocs.reduce((sum, cur) => sum + String(cur).length + 1, 0)`. -/
def attributesLengthOf (opts : FormatOptions) (st : StartTagNode) : Nat :=
  (attrDocsOf opts st).foldl (fun sum cur => sum + cur.length + 1) 0

/-- The count of placeholder-like attribute values. -/
def placeholderCountOf (st : StartTagNode) : Nat :=
  st.attributes.foldl
    (fun acc attr => acc + (if isPlaceholderLikeValue (rawOrValue attr) then 1 else 0)) 0

/-- Source `"<" + name + space + attrs` plus the placeholder penalty. -/
def approximateLengthOf (opts : FormatOptions) (st : StartTagNode) : Nat :=
  st.name.length + 1 + attributesLengthOf opts st +
    (if placeholderCountOf st > 0 then placeholderCountOf st * 10 else 0)

/-- The `shouldBreak` decision of `printStartTag`. -/
def shouldBreakAttributes (opts : FormatOptions) (st : StartTagNode) : Bool :=
  decide (approximateLengthOf opts st > effectivePrintWidth opts) ||
  decide (2 ≤ placeholderCountOf st) ||
  (st.selfClosing && decide (4 ≤ st.attributes.length))

/-- The closing piece of a start tag. -/
def startTagClosing (st : StartTagNode) : Doc :=
  Doc.textD (if st.selfClosing then js (" />") else js (">"))

/-- Source `printStartTag`: attribute docs are either indented one per line after a
softline (break mode) or joined by single spaces (inline mode). -/
def printStartTag (opts : FormatOptions) (st : StartTagNode) : Doc :=
  let parts0 : List Doc := [Doc.textD (js ("<")), Doc.textD st.name]
  if st.attributes ≠ [] then
    let attributeDocs := (attrDocsOf opts st).map Doc.textD
    if shouldBreakAttributes opts st then
      Doc.concat (parts0 ++
        [Doc.indentD (Doc.concat [Doc.softline, joinDocs Doc.hardline attributeDocs]),
         Doc.hardline, startTagClosing st])
    else
      Doc.concat (parts0 ++
        [Doc.textD (js (" ")), joinDocs (Doc.textD (js (" "))) attributeDocs,
         startTagClosing st])
  else Doc.concat (parts0 ++ [startTagClosing st])

def printEndTag (et : EndTagNode) : Str := js ("</") ++ et.name ++ js (">")

/-! Section: Embedded-script delegate (src/printer.js) -/

/-- Fuelled scanner for `enforceWxsStringQuotes`: rewrite simple `qFrom`-quoted
strings (no quotes, backslashes or newlines inside) to `qTo` quotes. -/
def quoteSwapF (qFrom qTo : Char) : Nat → Str → Str
  | 0, s => s
  | _ + 1, [] => []
  | f + 1, c :: t =>
    if c = qFrom then
      let run := t.takeWhile
        (fun ch => !(ch = dquote || ch = squote || ch = '\\' ||
                     ch = Char.ofNat 10 || ch = Char.ofNat 13))
      let after := t.drop run.length
      if after.head? = some qFrom then
        qTo :: run ++ qTo :: quoteSwapF qFrom qTo f (after.drop 1)
      else c :: quoteSwapF qFrom qTo f t
    else c :: quoteSwapF qFrom qTo f t

def enforceWxsStringQuotes (code : Str) (useSingleQuote : Bool) : Str :=
  if useSingleQuote then quoteSwapF dquote squote (code.length + 1) code
  else quoteSwapF squote dquote (code.length + 1) code

/-- Source `indentLines`: pad every line that is not whitespace-only. -/
def indentLines (text : Str) (indentSize : Nat) : Str :=
  let pad := List.replicate indentSize ' '
  joinChar (Char.ofNat 10)
    ((splitOnChar (Char.ofNat 10) text).map
      (fun l => if jsTrim l ≠ [] then pad ++ l else l))

/-- JavaScript word characters (`\w`). -/
def isWordChar (c : Char) : Bool := c.isAlpha || c.isDigit || c = '_'

/-- Fuelled scanner for `code.replace(/\bfunction\(/g, 'function (')`,
tracking the previous character for the word boundary. -/
def replaceFunctionParenF : Nat → Option Char → Str → Str
  | 0, _, s => s
  | _ + 1, _, [] => []
  | f + 1, prev, s@(c :: t) =>
    if (js ("function(")).isPrefixOf s &&
       (match prev with
        | some pc => !isWordChar pc
        | none => true) then
      js ("function (") ++ replaceFunctionParenF f (some '(') (s.drop 9)
    else c :: replaceFunctionParenF f (some c) t

/-- Source `formatWxsByBabelCompat`: the Babel parse/generate round-trip is an
external collaborator and is abstracted as `gen` (`none` models a thrown
parse/generate error, which the source catches and converts to `null`); the
repository-side post-processing (the `\bfunction\(` fixup and `trimEnd`) is
embedded. -/
def formatWxsByBabelCompat (gen : Str → Option Str) (jsCode : Str) : Option Str :=
  match gen jsCode with
  | some code => some (jsTrimEnd (replaceFunctionParenF (code.length + 1) none code))
  | none => none

/-- The per-attribute rendering inside the `printMisc` start tag:
`attr.value === null ? attr.key : key + "=" + normalized(attr.value)`. -/
def scriptTagAttr (opts : FormatOptions) (attr : WXAttributeNode) : Str :=
  match attr.value with
  | none => attr.key
  | some v => attr.key ++ ('=' :: normalizeAttrValueForWxmlQuotes v opts)

/-- The start-tag string built by `printMisc` (name plus space-prefixed
attributes, before the closing piece). -/
def scriptStartTagStr (opts : FormatOptions) (st : StartTagNode) : Str :=
  js ("<") ++ st.name ++
    st.attributes.foldl (fun acc attr => acc ++ (' ' :: scriptTagAttr opts attr)) []

/-- The value/end-tag part of `printMisc` after the start tag has been
rendered into `acc`. -/
def printMiscBody (gen : Str → Option Str) (opts : FormatOptions)
    (value : Option Str) (endTag : Option EndTagNode) (acc : Str) : Except Str Str :=
  let afterValue : Except Str Str :=
    match value with
    | some v =>
      if v ≠ [] then
        let acc := acc ++ [Char.ofNat 10]
        let jsCode := jsTrim v
        let indentSize := wxsIndentSize opts
        match formatWxsByBabelCompat gen jsCode with
        | some formatted =>
          let formatted := enforceWxsStringQuotes formatted (wxsUseSingleQuote opts)
          let content :=
            if formatted.getLast? = some (Char.ofNat 10) then formatted
            else formatted ++ [Char.ofNat 10]
          Except.ok (acc ++ indentLines content indentSize)
        | none => Except.error (js ("Failed to parse/format <wxs> JavaScript"))
      else Except.ok acc
    | none => Except.ok acc
  afterValue.map
    (fun acc2 =>
      acc2 ++
        (match endTag with
         | some et => js ("</") ++ et.name ++ js (">")
         | none => []))

/-- Source `printMisc` on a `WXScript` node: start tag rendered by hand, the body
formatted through the Babel-compat path (a `null` result raises the uniform
diagnostic), the end tag appended.  A self-closing start tag returns before
any content is considered. -/
def printMisc (gen : Str → Option Str) (opts : FormatOptions)
    (startTag : Option StartTagNode) (value : Option Str)
    (endTag : Option EndTagNode) : Except Str Str :=
  match startTag with
  | some st =>
    let base := scriptStartTagStr opts st
    if st.selfClosing then Except.ok (base ++ js (" />"))
    else printMiscBody gen opts value endTag (base ++ js (">"))
  | none => printMiscBody gen opts value endTag []

/-! Section: The parse tree seen by the printer (the @wxml/parser node kinds the
final printer dispatches on) -/

inductive WXNode where
  | program (body : List WXNode) (location : Option Location)
  | element (startTag : Option StartTagNode) (children : List WXNode)
      (endTag : Option EndTagNode) (location : Option Location)
  | wxtext (value : Option Str) (location : Option Location)
  | wxCharData (value : Option Str) (location : Option Location)
  | wxInterpolation (rawValue : Option Str) (location : Option Location)
  | wxComment (value : Str) (location : Option Location)
  | wxScript (startTag : Option StartTagNode) (value : Option Str)
      (endTag : Option EndTagNode) (location : Option Location)
deriving Repr

def WXNode.location : WXNode → Option Location
  | .program _ loc => loc
  | .element _ _ _ loc => loc
  | .wxtext _ loc => loc
  | .wxCharData _ loc => loc
  | .wxInterpolation _ loc => loc
  | .wxComment _ loc => loc
  | .wxScript _ _ _ loc => loc

/-- Source `n.type === "WXText" || n.type === "WXCharData"`. -/
def isTextNodeType : WXNode → Bool
  | .wxtext _ _ => true
  | .wxCharData _ _ => true
  | _ => false

/-- Text-type or interpolation node. -/
def isTextLikeNode : WXNode → Bool
  | .wxtext _ _ => true
  | .wxCharData _ _ => true
  | .wxInterpolation _ _ => true
  | _ => false

/-- Source `getNodeString`: the raw text of a text node or the raw expression of an
interpolation, empty otherwise. -/
def getNodeString : WXNode → Str
  | .wxtext (some v) _ => v
  | .wxCharData (some v) _ => v
  | .wxInterpolation (some r) _ => r
  | _ => []

/-- A text-type node whose string value is whitespace-only (the drop
condition used in the element and document child loops). -/
def isWsOnlyText : WXNode → Bool
  | .wxtext (some v) _ => jsTrim v = []
  | .wxCharData (some v) _ => jsTrim v = []
  | _ => false

/-- The `hasMeaningful` child test. -/
def isMeaningfulChild : WXNode → Bool
  | .wxtext (some v) _ => jsTrim v ≠ []
  | .wxCharData (some v) _ => jsTrim v ≠ []
  | .wxInterpolation _ _ => true
  | _ => false

/-- Structural document children: element, script or comment. -/
def isBlockNode : WXNode → Bool
  | .element _ _ _ _ => true
  | .wxScript _ _ _ _ => true
  | .wxComment _ _ => true
  | _ => false

/-- Source `(startTag && startTag.name) || (endTag && endTag.name) || ""`,
lower-cased. -/
def elementLowerName (st : Option StartTagNode) (et : Option EndTagNode) : Str :=
  let n1 :=
    match st with
    | some tag => tag.name
    | none => []
  let tagName :=
    if n1 ≠ [] then n1
    else
      match et with
      | some tag => tag.name
      | none => []
  tagName.map Char.toLower

/-- The configured prefer-break tag set: split on commas, trim, lower-case,
drop empties. -/
def preferBreakTagList (opts : FormatOptions) : List Str :=
  let input :=
    match opts.wxmlPreferBreakTags with
    | some s => s
    | none => []
  ((splitOnChar ',' input).map (fun s => (jsTrim s).map Char.toLower)).filter
    (fun s => s ≠ [])

/-- The `/\{[^}]*:/` test of the complexity heuristic. -/
def hasObjectLiteralPat : Str → Bool
  | [] => false
  | c :: t =>
    (c = lbrace && (t.takeWhile (fun d => d ≠ rbrace)).contains ':') ||
    hasObjectLiteralPat t

/-- The `/\[[^\]]*,[^\]]*\]/` test of the complexity heuristic. -/
def hasArrayCommaPat : Str → Bool
  | [] => false
  | c :: t =>
    (c = '[' &&
      (let run := t.takeWhile (fun d => d ≠ ']')
       run.contains ',' && (t.drop run.length).head? = some ']')) ||
    hasArrayCommaPat t

/-- Source `(inner.match(/&&/g) || []).length`: non-overlapping `&&` count. -/
def countAmpAmp : Str → Nat
  | '&' :: '&' :: t => 1 + countAmpAmp t
  | _ :: t => countAmpAmp t
  | [] => 0

/-- The whole `shouldInline` decision chain of `printElement`, including the
two `lowerName === 'text'` blocks that are unreachable behind the earlier
early return for `<text>` (transcribed for fidelity). -/
def elementShouldInline (opts : FormatOptions) (st : Option StartTagNode)
    (cs : List WXNode) (et : Option EndTagNode) : Bool :=
  match cs with
  | [] => false
  | c0 :: _ =>
    let singleTextInline :=
      decide (cs.length = 1) &&
      (match c0 with
       | .wxtext (some v) _ =>
         decide (0 < (jsTrim v).length) && decide ((jsTrim v).length < 50) &&
         !strIncludes v [Char.ofNat 10]
       | .wxCharData (some v) _ =>
         decide (0 < (jsTrim v).length) && decide ((jsTrim v).length < 50) &&
         !strIncludes v [Char.ofNat 10]
       | _ => false)
    let onlyTextualChildren := cs.all isTextLikeNode
    let hasNewline := cs.any (fun n => strIncludes (getNodeString n) [Char.ofNat 10])
    let totalLen := cs.foldl (fun acc n => acc + (getNodeString n).length) 0
    let hasMeaningful := cs.any isMeaningfulChild
    let smallInlineMix :=
      decide (cs.length ≤ 3) && onlyTextualChildren && !hasNewline &&
      decide (totalLen < 50) && hasMeaningful
    let lowerName := elementLowerName st et
    let isAlwaysBlock := lowerName = js ("block")
    let isPreferBlock := (preferBreakTagList opts).contains lowerName
    let shouldInline0 :=
      (singleTextInline || smallInlineMix) && !decide isAlwaysBlock && !isPreferBlock
    let hasAnyAttrs : Bool :=
      match st with
      | some tag => decide (tag.attributes ≠ [])
      | none => false
    let shouldInline1 :=
      if lowerName = js ("text") ∧ hasAnyAttrs = true then false else shouldInline0
    if lowerName = js ("text") then
      if hasAnyAttrs = false ∧ onlyTextualChildren = true ∧ hasNewline = false ∧
         cs.length = 1 then
        let rawCombined := getNodeString c0
        let trimmed := jsTrim rawCombined
        let isSingleMustache :=
          twoLbrace.isPrefixOf trimmed && twoRbrace.isSuffixOf trimmed
        let containsMustache := strIncludes rawCombined twoLbrace
        if containsMustache && isSingleMustache then
          let inner := ((trimmed.drop 2).dropLast).dropLast
          let hasObjectLiteral := hasObjectLiteralPat inner
          let hasArrayLiteral :=
            hasArrayCommaPat inner || (jsTrim inner).head? = some '['
          let andCount := countAmpAmp inner
          let hasOr := strIncludes inner pipePipe
          let complex :=
            hasObjectLiteral || hasArrayLiteral || decide (2 ≤ andCount) ||
            (decide (1 ≤ andCount) && hasOr)
          !complex
        else if isTextNodeType c0 then decide (trimmed.length ≤ 50)
        else false
      else false
    else shouldInline1

/-! Section: The printer entry point (src/printer.js, final version) -/

/-- The context threaded through printing: the options, the original source
text and the ignore ranges attached during `preprocess`, plus the abstract
Babel round-trip used by the embedded-script delegate. -/
structure PrintCtx where
  opts : FormatOptions
  originalText : Str
  ignoreRanges : List IgnoreRange
  babelGen : Str → Option Str

/-- JavaScript `String.prototype.slice(a, b)` for `0 ≤ a ≤ b`. -/
def listSlice (s : Str) (a b : Nat) : Str := (s.take b).drop a

/-- The ignore-range check at the top of `printer.print`: when the node span
is contained in some range, return the literal slice of the original text. -/
def ignoredSlice (ctx : PrintCtx) (loc : Option Location) : Option Str :=
  match loc with
  | some l =>
    if ctx.ignoreRanges.any
        (fun r => decide (r.rstart ≤ l.startOffset) && decide (l.endOffset ≤ r.rend)) then
      some (listSlice ctx.originalText l.startOffset l.endOffset)
    else none
  | none => none

/-- Source `printCharData` (final version): null value prints as the empty string,
whitespace-only values are returned as-is, other values get interpolation
normalization and are not trimmed. -/
def printCharData (value : Option Str) : Str :=
  match value with
  | none => []
  | some v => if jsTrim v = [] then v else formatWxmlInterpolations v

def printComment (value : Str) : Str := js ("<!--") ++ value ++ js ("-->")

/-- Source `path.call(print, "startTag")`: the main dispatcher applied to the start
tag node, including its own ignore-range check. -/
def printStartTagTop (ctx : PrintCtx) (st : StartTagNode) : Doc :=
  match ignoredSlice ctx st.location with
  | some s => Doc.textD s
  | none => printStartTag ctx.opts st

/-- Source `path.call(print, "endTag")` likewise. -/
def printEndTagTop (ctx : PrintCtx) (et : EndTagNode) : Doc :=
  match ignoredSlice ctx et.location with
  | some s => Doc.textD s
  | none => Doc.textD (printEndTag et)

/-- Source `isSimpleMustacheIdentifier`: exactly one inner line matching
`^[A-Za-z_$][0-9A-Za-z_$]*$`. -/
def isSimpleMustacheIdentifier (innerLines : List Str) : Bool :=
  match innerLines with
  | [l] =>
    match l with
    | [] => false
    | c :: rest =>
      (c.isAlpha || c = '_' || c = '$') &&
      rest.all (fun d => d.isAlpha || d.isDigit || d = '_' || d = '$')
  | _ => false

/-- Source `buildMultiLineMustacheDocFromPrinted`: recognize printed text of the
shape `{{ \n ... \n }}` (after per-line trimming) and rebuild it as docs. -/
def buildMultiLineMustacheDocFromPrinted (printedText : Str) : Option (List Doc) :=
  if strIncludes printedText [Char.ofNat 10] = false then none
  else
    let rawLines := (splitOnChar (Char.ofNat 10) printedText).map jsTrim
    if rawLines.head? ≠ some twoLbrace ∨ rawLines.getLast? ≠ some twoRbrace then none
    else
      let innerLines := (rawLines.drop 1).dropLast
      let contentDoc := innerLines.flatMap (fun l => [Doc.hardline, Doc.textD l])
      if isSimpleMustacheIdentifier innerLines then
        some [Doc.indentD (Doc.concat ([Doc.hardline, Doc.textD twoLbrace] ++ contentDoc)),
              Doc.hardline, Doc.textD twoRbrace, Doc.hardline]
      else
        some [Doc.indentD (Doc.concat ([Doc.hardline, Doc.textD twoLbrace] ++
                [Doc.indentD (Doc.concat contentDoc), Doc.hardline, Doc.textD twoRbrace])),
              Doc.hardline]

/-- The split of a multi-line printed text entry into line docs: a hardline
before every line after the first, empty lines contributing no text doc. -/
def splitLinesDocs : List Str → List Doc
  | [] => []
  | l0 :: rest =>
    (if l0 ≠ [] then [Doc.textD l0] else []) ++
      rest.flatMap (fun l => Doc.hardline :: (if l ≠ [] then [Doc.textD l] else []))

/-- Per-entry doc list in the block path of `printElement`: multi-line string
docs of text-type nodes are split on newlines, everything else is kept. -/
def splitTextEntryDocs (n : WXNode) (printed : Doc) : List Doc :=
  match printed with
  | Doc.textD s =>
    if isTextNodeType n && strIncludes s [Char.ofNat 10] then
      splitLinesDocs (splitOnChar (Char.ofNat 10) s)
    else [printed]
  | _ => [printed]

/-- The `childrenWithBreaks` loop: hardlines between entries, each entry split
via `splitTextEntryDocs`. -/
def childrenWithBreaksOf (entries : List (WXNode × Doc)) : List Doc :=
  match entries with
  | [] => []
  | e :: rest =>
    splitTextEntryDocs e.1 e.2 ++
      rest.flatMap (fun e2 => Doc.hardline :: splitTextEntryDocs e2.1 e2.2)

/-- The special case for a lone multi-line mustache text child in a
non-`text` element. -/
def mustacheSpecial (lowerName : Str) (entries : List (WXNode × Doc)) :
    Option (List Doc) :=
  match entries with
  | [(n, Doc.textD s)] =>
    if lowerName ≠ js ("text") ∧ isTextNodeType n = true then
      buildMultiLineMustacheDocFromPrinted s
    else none
  | _ => none

/-- The verbatim child emission of the `<text>` early return: text-type
values and interpolation raw values byte-for-byte, anything else through the
recursive printer `p`. -/
def textChildrenDocs (p : WXNode → Except Str Doc) : List WXNode → Except Str (List Doc)
  | [] => Except.ok []
  | c :: rest => do
    let d ←
      match c with
      | WXNode.wxtext (some v) _ => Except.ok (Doc.textD v)
      | WXNode.wxCharData (some v) _ => Except.ok (Doc.textD v)
      | WXNode.wxInterpolation (some r) _ => Except.ok (Doc.textD r)
      | other => p other
    let ds ← textChildrenDocs p rest
    Except.ok (d :: ds)

/-- The child collection loop of `printElement`: outside inline mode
whitespace-only text children are dropped, printed children that are the
empty string are filtered, the rest are kept with their nodes. -/
def collectChildren (p : WXNode → Except Str Doc) (shouldInline : Bool) :
    List WXNode → Except Str (List (WXNode × Doc))
  | [] => Except.ok []
  | c :: rest =>
    if !shouldInline && isWsOnlyText c then collectChildren p shouldInline rest
    else do
      let printed ← p c
      let tail ← collectChildren p shouldInline rest
      if isEmptyStringDoc printed then Except.ok tail
      else Except.ok ((c, printed) :: tail)

def endTagParts (ctx : PrintCtx) (et : Option EndTagNode) : List Doc :=
  match et with
  | some tag => [printEndTagTop ctx tag]
  | none => []

/-- Source `printElement`, with the recursive printer passed in as `p`. -/
def printElementWith (p : WXNode → Except Str Doc) (ctx : PrintCtx)
    (st : Option StartTagNode) (cs : List WXNode) (et : Option EndTagNode) :
    Except Str Doc :=
  let parts0 : List Doc :=
    match st with
    | some tag => [printStartTagTop ctx tag]
    | none => []
  if !cs.isEmpty then
    let lowerName := elementLowerName st et
    if lowerName = js ("text") then do
      let ds ← textChildrenDocs p cs
      Except.ok (Doc.group (Doc.concat (parts0 ++ ds ++ endTagParts ctx et)))
    else do
      let shouldInline := elementShouldInline ctx.opts st cs et
      let entries ← collectChildren p shouldInline cs
      let parts1 :=
        if !entries.isEmpty then
          if shouldInline then parts0 ++ entries.map (fun e => e.2)
          else
            match mustacheSpecial lowerName entries with
            | some ml => parts0 ++ ml
            | none =>
              parts0 ++
                [Doc.indentD (Doc.concat (Doc.hardline :: childrenWithBreaksOf entries)),
                 Doc.hardline]
        else parts0
      Except.ok (Doc.group (Doc.concat (parts1 ++ endTagParts ctx et)))
  else Except.ok (Doc.group (Doc.concat (parts0 ++ endTagParts ctx et)))

/-- The body loop of `printDocument`: whitespace-only top-level text nodes
are dropped, a hardline is inserted between a structural sibling and whatever
precedes or follows it. -/
def printDocGo (p : WXNode → Except Str Doc) :
    List WXNode → List Doc → Bool → Except Str (List Doc)
  | [], parts, _ => Except.ok parts
  | c :: rest, parts, lastWasBlock =>
    if isWsOnlyText c then printDocGo p rest parts lastWasBlock
    else do
      let printed ← p c
      if isEmptyStringDoc printed then printDocGo p rest parts lastWasBlock
      else
        let isBlock := isBlockNode c
        let parts2 :=
          if !parts.isEmpty && (isBlock || lastWasBlock) then
            parts ++ [Doc.hardline, printed]
          else parts ++ [printed]
        printDocGo p rest parts2 isBlock

/-- Source `printDocument`, with the recursive printer passed in as `p`. -/
def printDocumentWith (p : WXNode → Except Str Doc) (body : List WXNode) :
    Except Str Doc :=
  if body.isEmpty then Except.ok (Doc.textD [])
  else do
    let parts ← printDocGo p body [] false
    if !parts.isEmpty then Except.ok (Doc.group (Doc.concat (parts ++ [Doc.hardline])))
    else Except.ok (Doc.group (Doc.concat parts))

def missingRawValueMsg : Str :=
  js ("WXInterpolation node missing rawValue. This is a bug in the parser or printer.")

/-- The fuelled main printer: the ignore-range check runs before the kind
dispatch; the fuel only bounds the recursion depth and never runs out when
the wrapper below is used. -/
def printNodeF : Nat → PrintCtx → WXNode → Except Str Doc
  | 0, _, _ => Except.error (js ("printer fuel exhausted"))
  | f + 1, ctx, n =>
    match ignoredSlice ctx n.location with
    | some s => Except.ok (Doc.textD s)
    | none =>
      match n with
      | WXNode.program body _ => printDocumentWith (printNodeF f ctx) body
      | WXNode.element st cs et _ => printElementWith (printNodeF f ctx) ctx st cs et
      | WXNode.wxtext v _ => Except.ok (Doc.textD (printCharData v))
      | WXNode.wxCharData v _ => Except.ok (Doc.textD (printCharData v))
      | WXNode.wxInterpolation raw _ =>
        match raw with
        | some r => if r ≠ [] then Except.ok (Doc.textD r) else Except.error missingRawValueMsg
        | none => Except.error missingRawValueMsg
      | WXNode.wxComment v _ => Except.ok (Doc.textD (printComment v))
      | WXNode.wxScript st v et _ => (printMisc ctx.babelGen ctx.opts st v et).map Doc.textD

mutual

/-- A computable node count, used only to compute sufficient printer fuel. -/
def WXNode.sizeW : WXNode → Nat
  | .program body _ => 1 + sizeWList body
  | .element _ cs _ _ => 1 + sizeWList cs
  | .wxtext _ _ => 1
  | .wxCharData _ _ => 1
  | .wxInterpolation _ _ => 1
  | .wxComment _ _ => 1
  | .wxScript _ _ _ _ => 1

def sizeWList : List WXNode → Nat
  | [] => 0
  | c :: rest => WXNode.sizeW c + 1 + sizeWList rest

end

/-- Source `printer.print` on a node: fuel `sizeW n + 1` strictly dominates the
recursion depth, so the fuel case is unreachable. -/
def printNode (ctx : PrintCtx) (n : WXNode) : Except Str Doc :=
  printNodeF (n.sizeW + 1) ctx n

mutual

/-- Hardline detection in a doc, used to state that a layout is inline. -/
def docContainsHardline : Doc → Bool
  | Doc.textD _ => false
  | Doc.concat parts => docsContainHardline parts
  | Doc.group d => docContainsHardline d
  | Doc.indentD d => docContainsHardline d
  | Doc.hardline => true
  | Doc.softline => false
  | Doc.line => false

/-- Hardline detection in a list of docs. -/
def docsContainHardline : List Doc → Bool
  | [] => false
  | d :: rest => docContainsHardline d || docsContainHardline rest

end

/-- A printing context with default options, no ignore ranges and a Babel
round-trip that always fails (irrelevant for nodes without scripts). -/
def plainCtx : PrintCtx :=
  { opts := {}, originalText := [], ignoreRanges := [], babelGen := fun _ => none }

/-- Source `<text class="a">hi</text>`: a verbatim-text element that carries an
attribute. -/
def textWithAttrNode : WXNode :=
  WXNode.element
    (some { name := js ("text"),
            attributes := [{ key := js ("class"), value := some (js ("a")),
                             rawValue := some (js ("\"a\"")) }],
            selfClosing := false })
    [WXNode.wxtext (some (js ("hi"))) none]
    (some { name := js ("text") })
    none

/-- A boolean attribute node (`hidden`). -/
def hiddenAttr : WXAttributeNode := { key := js ("hidden"), value := none, rawValue := none }

/-- A one-attribute, non-self-closing start tag staying under the print
width. -/
def shortStartTag : StartTagNode :=
  { name := js ("view"),
    attributes := [{ key := js ("class"), value := some (js ("a")),
                     rawValue := some (js ("\"a\"")) }],
    selfClosing := false }

/-- A context holding an ignore range over bytes 0 to 10 of a sample text. -/
def ignoreCtx : PrintCtx :=
  { opts := {}, originalText := js ("0123456789ABCDEF"),
    ignoreRanges := [{ rstart := 0, rend := 10 }], babelGen := fun _ => none }

/-- A text node with span `[2, 5)` inside the ignore range. -/
def ignoredNode : WXNode :=
  WXNode.wxtext (some (js ("x"))) (some { startOffset := 2, endOffset := 5 })

/-- A Babel round-trip that always fails (models unparsable script). -/
def failGen : Str → Option Str := fun _ => none

def wxsTag : StartTagNode := { name := js ("wxs"), attributes := [], selfClosing := false }

def sampleStartTok : CommentTok :=
  { image := ignoreStartComment, startOffset := 0, endOffset := 30 }

def sampleEndTok : CommentTok :=
  { image := ignoreEndComment, startOffset := 50, endOffset := 78 }

/-! Section: Claim theorems -/

/-- Claim C3 (code bug witness): on the input
`<view>{{x<wxs>y</wxs>z}}</view>` the protection pass produces the processed
text `<view>__TEMPLATE_EXPR_0__</view>` together with two protected items, and
restoring the parsed text-node value `__TEMPLATE_EXPR_0__` leaves the earlier
placeholder `__WXS_CONTENT_0__` in the result: restoring the template item
re-introduces the wxs placeholder after the single in-order restoration pass
has already passed the wxs item, so a placeholder created during protection
survives into the output, contradicting placeholder totality. -/
theorem placeholder_leak_eval :
    (preprocessText (js ("<view>\x7b\x7bx<wxs>y</wxs>z\x7d\x7d</view>"))).1 =
      js ("<view>__TEMPLATE_EXPR_0__</view>") ∧
    strIncludes
      (restoreStringProperty (js ("__TEMPLATE_EXPR_0__"))
        (preprocessText (js ("<view>\x7b\x7bx<wxs>y</wxs>z\x7d\x7d</view>"))).2)
      (js ("__WXS_CONTENT_0__")) = true ∧
    strIncludes
      (restoreAttributeValue (js ("__TEMPLATE_EXPR_0__"))
        (preprocessText (js ("<view>\x7b\x7bx<wxs>y</wxs>z\x7d\x7d</view>"))).2)
      (js ("__WXS_CONTENT_0__")) = true :=
  ⟨rfl, rfl, rfl⟩

/-- Claim C4 (counterexample): on the spec example `{{ {a:1, b:[1,2,{c:3}]} }}`
the protection pass captures nothing at all — the naive `\{\{([^}]+)\}\}`
pattern has no match because the body may not contain `}` — so the text is
returned unchanged and no placeholder record is created, refuting the claim
that the pass captures the expression whole with a depth counter. -/
theorem brace_balancing_counterexample :
    protectTemplateExpressions
        (js ("\x7b\x7b \x7ba:1, b:[1,2,\x7bc:3\x7d]\x7d \x7d\x7d")) =
      (js ("\x7b\x7b \x7ba:1, b:[1,2,\x7bc:3\x7d]\x7d \x7d\x7d"), []) :=
  rfl

/-- Claim C7 (code bug witness): printing `<text class="a">hi</text>` emits
the start tag, the child text byte-for-byte and the end tag as one inline
group with no hardline and no indentation: the attribute does not force block
layout, because the `<text>` early return never consults the attributes. -/
theorem text_tag_attr_inline_eval :
    printNode plainCtx textWithAttrNode =
      Except.ok (Doc.group (Doc.concat
        [Doc.concat [Doc.textD (js ("<")), Doc.textD (js ("text")),
                     Doc.textD (js (" ")),
                     joinDocs (Doc.textD (js (" "))) [Doc.textD (js ("class=\"a\""))],
                     Doc.textD (js (">"))],
         Doc.textD (js ("hi")), Doc.textD (js ("</text>"))])) ∧
    docContainsHardline (Doc.group (Doc.concat
        [Doc.concat [Doc.textD (js ("<")), Doc.textD (js ("text")),
                     Doc.textD (js (" ")),
                     joinDocs (Doc.textD (js (" "))) [Doc.textD (js ("class=\"a\""))],
                     Doc.textD (js (">"))],
         Doc.textD (js ("hi")), Doc.textD (js ("</text>"))])) = false := by
  constructor
  · rfl
  · rfl

/-- Claim C10: an attribute whose value is null prints as the bare key — no
equals sign, no quotes, no normalization — both in ordinary start tags
(`printAttribute`) and in script-container start tags (`scriptTagAttr`). -/
theorem boolean_attribute_bare_key (opts : FormatOptions) (attr : WXAttributeNode)
    (h : attr.value = none) :
    printAttribute opts attr = attr.key ∧ scriptTagAttr opts attr = attr.key := by
  constructor
  · simp [printAttribute, h]
  · simp [scriptTagAttr, h]

/-- Witness for C10 at the concrete attribute `hidden`. -/
theorem boolean_attribute_bare_key_witness :
    hiddenAttr.value = none ∧
    (printAttribute {} hiddenAttr = hiddenAttr.key ∧
     scriptTagAttr {} hiddenAttr = hiddenAttr.key) :=
  ⟨rfl, boolean_attribute_bare_key {} hiddenAttr rfl⟩

theorem getLastQ_cons_concat (a b : Char) (l : Str) :
    (a :: (l ++ [b])).getLast? = some b := by
  rw [show a :: (l ++ [b]) = (a :: l) ++ [b] from rfl, List.getLast?_concat]

/-- Claim C6: for a value quoted with `q` whose inner content is `c`, the
quote style is swapped to the configured preference exactly when the
(interpolation-normalized) content does not contain the preferred quote
character, and otherwise the original quote is kept; moreover the
normalization leaves content without `{{` untouched, so for plain values the
test is on the content itself. -/
theorem attr_quote_preference (opts : FormatOptions) (c : Str) (q : Char)
    (hq : q = dquote ∨ q = squote) :
    normalizeAttrValueForWxmlQuotes (q :: (c ++ [q])) opts =
      (if (formatWxmlInterpolations c).contains
           (if opts.wxmlSingleQuote then squote else dquote) then
         q :: (formatWxmlInterpolations c ++ [q])
       else
         (if opts.wxmlSingleQuote then squote else dquote) ::
           (formatWxmlInterpolations c ++
             [if opts.wxmlSingleQuote then squote else dquote])) ∧
    (strIncludes c twoLbrace = false → formatWxmlInterpolations c = c) := by
  constructor
  · have hquoted :
        ((q :: (c ++ [q])).head? = some dquote ∧
          (q :: (c ++ [q])).getLast? = some dquote) ∨
        ((q :: (c ++ [q])).head? = some squote ∧
          (q :: (c ++ [q])).getLast? = some squote) := by
      rcases hq with h | h <;> subst h
      · exact Or.inl ⟨rfl, getLastQ_cons_concat _ _ _⟩
      · exact Or.inr ⟨rfl, getLastQ_cons_concat _ _ _⟩
    rw [normalizeAttrValueForWxmlQuotes, if_pos hquoted]
    have hcontent : ((q :: (c ++ [q])).drop 1).dropLast = c := by
      simp [List.dropLast_concat]
    rw [hcontent]
    cases hsq : opts.wxmlSingleQuote with
    | true =>
      by_cases hc : (formatWxmlInterpolations c).contains squote = true
      · simp [hc]
      · simp at hc
        simp [hc]
    | false =>
      by_cases hc : (formatWxmlInterpolations c).contains dquote = true
      · simp [hc]
      · simp at hc
        simp [hc]
  · intro h
    rw [formatWxmlInterpolations, h]
    simp

/-- Witness for C6: `class="container"` under single-quote preference — the
content has no single quote, so the value is re-quoted with the preference. -/
theorem attr_quote_preference_witness :
    (dquote = dquote ∨ dquote = squote) ∧
    normalizeAttrValueForWxmlQuotes (dquote :: (js ("container") ++ [dquote]))
        { wxmlSingleQuote := true } =
      (if (formatWxmlInterpolations (js ("container"))).contains
           (if ({ wxmlSingleQuote := true } : FormatOptions).wxmlSingleQuote then squote
            else dquote) then
         dquote :: (formatWxmlInterpolations (js ("container")) ++ [dquote])
       else
         (if ({ wxmlSingleQuote := true } : FormatOptions).wxmlSingleQuote then squote
          else dquote) ::
           (formatWxmlInterpolations (js ("container")) ++
             [if ({ wxmlSingleQuote := true } : FormatOptions).wxmlSingleQuote then squote
              else dquote])) :=
  ⟨Or.inl rfl,
   (attr_quote_preference { wxmlSingleQuote := true } (js ("container")) dquote
      (Or.inl rfl)).1⟩

/-- Claim C5: a start tag with attributes breaks them onto individual
indented lines (softline, then hardline-joined attribute docs, one indent
level, then a hardline before the closing piece) exactly when the approximate
serialized length exceeds the effective print width, or at least two
attribute values look placeholder-like, or the tag is self-closing with at
least four attributes; otherwise the attributes stay space-joined on the same
line. -/
theorem attribute_breaking_rule (opts : FormatOptions) (st : StartTagNode)
    (hne : st.attributes ≠ []) :
    (approximateLengthOf opts st > effectivePrintWidth opts ∨
       2 ≤ placeholderCountOf st ∨
       (st.selfClosing = true ∧ 4 ≤ st.attributes.length) →
      printStartTag opts st =
        Doc.concat
          [Doc.textD (js ("<")), Doc.textD st.name,
           Doc.indentD (Doc.concat
             [Doc.softline, joinDocs Doc.hardline ((attrDocsOf opts st).map Doc.textD)]),
           Doc.hardline, startTagClosing st]) ∧
    (¬(approximateLengthOf opts st > effectivePrintWidth opts ∨
        2 ≤ placeholderCountOf st ∨
        (st.selfClosing = true ∧ 4 ≤ st.attributes.length)) →
      printStartTag opts st =
        Doc.concat
          [Doc.textD (js ("<")), Doc.textD st.name, Doc.textD (js (" ")),
           joinDocs (Doc.textD (js (" "))) ((attrDocsOf opts st).map Doc.textD),
           startTagClosing st]) := by
  constructor
  · intro hcond
    have hb : shouldBreakAttributes opts st = true := by
      simp only [shouldBreakAttributes, Bool.or_eq_true, Bool.and_eq_true,
        decide_eq_true_eq]
      rcases hcond with h | h | ⟨h1, h2⟩
      · exact Or.inl (Or.inl h)
      · exact Or.inl (Or.inr h)
      · exact Or.inr ⟨h1, h2⟩
    simp [printStartTag, hne, hb]
  · intro hcond
    have hb : shouldBreakAttributes opts st = false := by
      cases h : shouldBreakAttributes opts st
      · rfl
      · exfalso
        apply hcond
        simp only [shouldBreakAttributes, Bool.or_eq_true, Bool.and_eq_true,
          decide_eq_true_eq] at h
        rcases h with (h | h) | ⟨h1, h2⟩
        · exact Or.inl h
        · exact Or.inr (Or.inl h)
        · exact Or.inr (Or.inr ⟨h1, h2⟩)
    simp [printStartTag, hne, hb]

/-- Witness for C5: under the default width the short tag keeps its attribute
space-joined on one line. -/
theorem attribute_breaking_rule_witness :
    shortStartTag.attributes ≠ [] ∧
    ¬(approximateLengthOf {} shortStartTag > effectivePrintWidth {} ∨
       2 ≤ placeholderCountOf shortStartTag ∨
       (shortStartTag.selfClosing = true ∧ 4 ≤ shortStartTag.attributes.length)) ∧
    printStartTag {} shortStartTag =
      Doc.concat
        [Doc.textD (js ("<")), Doc.textD shortStartTag.name, Doc.textD (js (" ")),
         joinDocs (Doc.textD (js (" "))) ((attrDocsOf {} shortStartTag).map Doc.textD),
         startTagClosing shortStartTag] :=
  ⟨by decide, by decide,
   (attribute_breaking_rule {} shortStartTag (by decide)).2 (by decide)⟩

/-- One-step unfolding of the fuelled printer at a successor fuel value. -/
theorem printNodeF_succ (f : Nat) (ctx : PrintCtx) (n : WXNode) :
    printNodeF (f + 1) ctx n =
      match ignoredSlice ctx n.location with
      | some s => Except.ok (Doc.textD s)
      | none =>
        match n with
        | WXNode.program body _ => printDocumentWith (printNodeF f ctx) body
        | WXNode.element st cs et _ => printElementWith (printNodeF f ctx) ctx st cs et
        | WXNode.wxtext v _ => Except.ok (Doc.textD (printCharData v))
        | WXNode.wxCharData v _ => Except.ok (Doc.textD (printCharData v))
        | WXNode.wxInterpolation raw _ =>
          match raw with
          | some r =>
            if r ≠ [] then Except.ok (Doc.textD r) else Except.error missingRawValueMsg
          | none => Except.error missingRawValueMsg
        | WXNode.wxComment v _ => Except.ok (Doc.textD (printComment v))
        | WXNode.wxScript st v et _ =>
          (printMisc ctx.babelGen ctx.opts st v et).map Doc.textD := by
  rfl

/-- Claim C2: when a node's span is fully contained in some ignore range, the
printer returns the literal source slice for the span, and for elements the
children are not visited — the result does not depend on them at all. -/
theorem ignore_region_fidelity (ctx : PrintCtx) (n : WXNode) (loc : Location)
    (hloc : n.location = some loc)
    (hin : ∃ r ∈ ctx.ignoreRanges,
      r.rstart ≤ loc.startOffset ∧ loc.endOffset ≤ r.rend) :
    printNode ctx n =
      Except.ok (Doc.textD (listSlice ctx.originalText loc.startOffset loc.endOffset)) ∧
    (∀ st cs cs' et, n = WXNode.element st cs et (some loc) →
      printNode ctx (WXNode.element st cs' et (some loc)) = printNode ctx n) ∧
    (∀ body body', n = WXNode.program body (some loc) →
      printNode ctx (WXNode.program body' (some loc)) = printNode ctx n) := by
  have hany : ctx.ignoreRanges.any
      (fun r => decide (r.rstart ≤ loc.startOffset) &&
                decide (loc.endOffset ≤ r.rend)) = true := by
    rw [List.any_eq_true]
    obtain ⟨r, hr, h1, h2⟩ := hin
    exact ⟨r, hr, by simp [h1, h2]⟩
  have hslice : ignoredSlice ctx (some loc) =
      some (listSlice ctx.originalText loc.startOffset loc.endOffset) := by
    rw [ignoredSlice, if_pos hany]
  have hmain : printNode ctx n =
      Except.ok (Doc.textD (listSlice ctx.originalText loc.startOffset loc.endOffset)) := by
    rw [printNode, printNodeF_succ, hloc, hslice]
  refine ⟨hmain, ?_, ?_⟩
  · intro st cs cs' et hn
    have h2 : printNode ctx (WXNode.element st cs' et (some loc)) =
        Except.ok (Doc.textD (listSlice ctx.originalText loc.startOffset loc.endOffset)) := by
      rw [printNode, printNodeF_succ, show (WXNode.element st cs' et (some loc)).location =
        some loc from rfl, hslice]
    rw [h2, hmain]
  · intro body body' hn
    have h2 : printNode ctx (WXNode.program body' (some loc)) =
        Except.ok (Doc.textD (listSlice ctx.originalText loc.startOffset loc.endOffset)) := by
      rw [printNode, printNodeF_succ, show (WXNode.program body' (some loc)).location =
        some loc from rfl, hslice]
    rw [h2, hmain]

/-- Witness for C2 at the concrete contained node. -/
theorem ignore_region_fidelity_witness :
    ignoredNode.location = some { startOffset := 2, endOffset := 5 } ∧
    (∃ r ∈ ignoreCtx.ignoreRanges, r.rstart ≤ 2 ∧ 5 ≤ r.rend) ∧
    printNode ignoreCtx ignoredNode =
      Except.ok (Doc.textD (listSlice ignoreCtx.originalText 2 5)) :=
  ⟨rfl, by decide,
   (ignore_region_fidelity ignoreCtx ignoredNode { startOffset := 2, endOffset := 5 }
      rfl (by decide)).1⟩

/-- Claim C9: the embedded-script failure policy is uniformly hard failure.
For a script container with non-empty content, `printMisc` either raises the
single fixed diagnostic (exactly when the Babel-compat sub-formatter fails)
or returns the fully rendered output; no degraded partial output exists. -/
theorem wxs_failure_policy (gen : Str → Option Str) (opts : FormatOptions)
    (st : StartTagNode) (v : Str) (et : Option EndTagNode)
    (hsc : st.selfClosing = false) (hv : v ≠ []) :
    (formatWxsByBabelCompat gen (jsTrim v) = none →
      printMisc gen opts (some st) (some v) et =
        Except.error (js ("Failed to parse/format <wxs> JavaScript"))) ∧
    (∀ out, formatWxsByBabelCompat gen (jsTrim v) = some out →
      printMisc gen opts (some st) (some v) et =
        Except.ok
          ((scriptStartTagStr opts st ++ js (">") ++ [Char.ofNat 10] ++
            indentLines
              (let formatted :=
                enforceWxsStringQuotes out (wxsUseSingleQuote opts)
               if formatted.getLast? = some (Char.ofNat 10) then formatted
               else formatted ++ [Char.ofNat 10])
              (wxsIndentSize opts)) ++
           (match et with
            | some tag => js ("</") ++ tag.name ++ js (">")
            | none => []))) := by
  constructor
  · intro hfail
    rw [printMisc.eq_def]
    simp only [hsc, Bool.false_eq_true, if_false]
    rw [printMiscBody.eq_def]
    simp [hv, hfail, Except.map]
  · intro out hok
    rw [printMisc.eq_def]
    simp only [hsc, Bool.false_eq_true, if_false]
    rw [printMiscBody.eq_def]
    simp [hv, hok, Except.map]

/-- Witness for C9: with a failing sub-formatter, the script container format
raises the uniform diagnostic. -/
theorem wxs_failure_policy_witness :
    wxsTag.selfClosing = false ∧ js ("var a=") ≠ ([] : Str) ∧
    printMisc failGen {} (some wxsTag) (some (js ("var a=")))
        (some { name := js ("wxs") }) =
      Except.error (js ("Failed to parse/format <wxs> JavaScript")) :=
  ⟨rfl, by decide,
   (wxs_failure_policy failGen {} wxsTag (js ("var a=")) (some { name := js ("wxs") })
      rfl (by decide)).1 rfl⟩

theorem takeWhile_append_of_all {α} (p : α → Bool) (c d : List α)
    (h : ∀ x ∈ c, p x = true) : (c ++ d).takeWhile p = c ++ d.takeWhile p := by
  induction c with
  | nil => simp
  | cons x t ih =>
    have hx : p x = true := h x (List.mem_cons_self x t)
    have ht : ∀ y ∈ t, p y = true := fun y hy => h y (List.mem_cons_of_mem x hy)
    simp [List.takeWhile_cons, hx, ih ht]

theorem protectTemplateGoF_no_lbrace :
    ∀ (s : Str) (f idx : Nat), lbrace ∉ s → protectTemplateGoF f s idx = (s, []) := by
  intro s
  induction s with
  | nil => intro f idx _; cases f <;> rfl
  | cons c t ih =>
    intro f idx h
    have hc : c ≠ lbrace := fun hcc => h (hcc ▸ List.mem_cons_self c t)
    have ht : lbrace ∉ t := fun hm => h (List.mem_cons_of_mem c hm)
    cases f with
    | zero => rfl
    | succ f =>
      rw [protectTemplateGoF]
      rw [if_neg (fun hand => hc hand.1)]
      rw [ih f idx ht]

theorem protectTemplateGoF_append :
    ∀ (a : Str), lbrace ∉ a → ∀ (f : Nat) (rest : Str) (idx : Nat),
      protectTemplateGoF f (a ++ rest) idx =
        (a ++ (protectTemplateGoF (f - a.length) rest idx).1,
         (protectTemplateGoF (f - a.length) rest idx).2) := by
  intro a
  induction a with
  | nil => intro _ f rest idx; simp
  | cons c t ih =>
    intro h f rest idx
    have hc : c ≠ lbrace := fun hcc => h (hcc ▸ List.mem_cons_self c t)
    have ht : lbrace ∉ t := fun hm => h (List.mem_cons_of_mem c hm)
    cases f with
    | zero =>
      have h0 : (0 : Nat) - (c :: t).length = 0 := by omega
      rw [protectTemplateGoF, h0, protectTemplateGoF]
    | succ f =>
      rw [show (c :: t) ++ rest = c :: (t ++ rest) from rfl]
      rw [protectTemplateGoF]
      rw [if_neg (fun hand => hc hand.1)]
      rw [ih ht f rest idx]
      simp [Nat.succ_sub_succ]

theorem protectTemplateGoF_match (c b : Str) (f idx : Nat)
    (hcm : rbrace ∉ c) (hne : c ≠ []) :
    protectTemplateGoF (f + 1) (lbrace :: lbrace :: (c ++ rbrace :: rbrace :: b)) idx =
      (templatePlaceholder idx ++ (protectTemplateGoF f b (idx + 1)).1,
       { placeholder := templatePlaceholder idx, content := c, type := TEMPLATE_EXPR } ::
         (protectTemplateGoF f b (idx + 1)).2) := by
  have htake : (c ++ rbrace :: rbrace :: b).takeWhile (fun ch => ch ≠ rbrace) = c := by
    rw [takeWhile_append_of_all _ _ _
      (fun x hx => by
        simp only [decide_eq_true_eq]
        exact fun hxx => hcm (hxx ▸ hx))]
    simp [List.takeWhile_cons]
  have hdrop : (c ++ rbrace :: rbrace :: b).drop c.length = rbrace :: rbrace :: b := by
    simp
  rw [protectTemplateGoF]
  rw [if_pos ⟨rfl, rfl⟩]
  simp only [List.drop_succ_cons, List.drop_zero, htake, hdrop]
  rw [if_pos ⟨hne, rfl, rfl⟩]

/-- Claim C4 (amended): the protection pass performs naive non-nesting
matching.  An interpolation whose body contains no closing brace — preceded
and followed by text without `{` — is captured whole into a single
placeholder record; nested-brace expressions are not captured at all (see the
counterexample) and flow unchanged to the downstream parser. -/
theorem template_protection_bracefree (a c b : Str)
    (ha : lbrace ∉ a) (hbm : lbrace ∉ b) (hcm : rbrace ∉ c) (hne : c ≠ []) :
    protectTemplateExpressions (a ++ (twoLbrace ++ c ++ twoRbrace ++ b)) =
      (a ++ (templatePlaceholder 0 ++ b),
       [{ placeholder := templatePlaceholder 0, content := c,
          type := TEMPLATE_EXPR }]) := by
  have hM : twoLbrace ++ c ++ twoRbrace ++ b =
      lbrace :: lbrace :: (c ++ rbrace :: rbrace :: b) := by
    simp [twoLbrace, twoRbrace]
  rw [protectTemplateExpressions]
  rw [protectTemplateGoF_append a ha]
  have hfuel : (a ++ (twoLbrace ++ c ++ twoRbrace ++ b)).length + 1 - a.length =
      (c.length + b.length + 4) + 1 := by
    simp [twoLbrace, twoRbrace]
    omega
  rw [hfuel, hM]
  rw [protectTemplateGoF_match c b (c.length + b.length + 4) 0 hcm hne]
  rw [protectTemplateGoF_no_lbrace b (c.length + b.length + 4) 1 hbm]

/-- Witness for C4 (amended) at `<view>{{x}}</view>`. -/
theorem template_protection_bracefree_witness :
    lbrace ∉ js ("<view>") ∧ lbrace ∉ js ("</view>") ∧ rbrace ∉ js ("x") ∧
    js ("x") ≠ ([] : Str) ∧
    protectTemplateExpressions
        (js ("<view>") ++ (twoLbrace ++ js ("x") ++ twoRbrace ++ js ("</view>"))) =
      (js ("<view>") ++ (templatePlaceholder 0 ++ js ("</view>")),
       [{ placeholder := templatePlaceholder 0, content := js ("x"),
          type := TEMPLATE_EXPR }]) :=
  ⟨by decide, by decide, by decide, by decide,
   template_protection_bracefree (js ("<view>")) (js ("x")) (js ("</view>"))
     (by decide) (by decide) (by decide) (by decide)⟩

theorem tok_chain_all :
    ∀ (rest : List CommentTok) (c : CommentTok),
      List.Chain' (fun a b => a.endOffset ≤ b.startOffset) (c :: rest) →
      (∀ x ∈ c :: rest, x.startOffset ≤ x.endOffset) →
      ∀ x ∈ rest, c.endOffset ≤ x.startOffset := by
  intro rest
  induction rest with
  | nil => intro c _ _ x hx; cases hx
  | cons d rest ih =>
    intro c hch hv x hx
    rw [List.chain'_cons] at hch
    rcases List.mem_cons.mp hx with rfl | hx
    · exact hch.1
    · have hd := ih d hch.2 (fun y hy => hv y (List.mem_cons_of_mem c hy)) x hx
      have hdd : d.startOffset ≤ d.endOffset :=
        hv d (List.mem_cons_of_mem c (List.mem_cons_self d rest))
      omega

theorem chain_start_sorted :
    ∀ (l : List CommentTok),
      List.Chain' (fun a b => a.endOffset ≤ b.startOffset) l →
      (∀ x ∈ l, x.startOffset ≤ x.endOffset) →
      List.Chain' (fun a b => a.startOffset ≤ b.startOffset) l := by
  intro l
  induction l with
  | nil => intro _ _; exact List.chain'_nil
  | cons c t ih =>
    intro hch hv
    cases t with
    | nil => simp
    | cons d rest =>
      rw [List.chain'_cons] at hch ⊢
      refine ⟨le_trans (hv c (List.mem_cons_self c _)) hch.1, ?_⟩
      exact ih hch.2 (fun y hy => hv y (List.mem_cons_of_mem c hy))

theorem sortByStartOffset_sorted_id :
    ∀ (l : List CommentTok),
      List.Chain' (fun a b => a.startOffset ≤ b.startOffset) l →
      sortByStartOffset l = l := by
  intro l
  induction l with
  | nil => intro _; rfl
  | cons c t ih =>
    intro hs
    have hstep : sortByStartOffset (c :: t) = insertByStart c (sortByStartOffset t) := rfl
    rw [hstep, ih hs.tail]
    cases t with
    | nil => rfl
    | cons d rest =>
      rw [List.chain'_cons] at hs
      rw [insertByStart, if_pos hs.1]

theorem buildIgnoreRangesGo_sound :
    ∀ (l : List CommentTok) (p : Option Nat),
      List.Chain' (fun a b => a.endOffset ≤ b.startOffset) l →
      (∀ x ∈ l, x.startOffset ≤ x.endOffset) →
      (∀ s, p = some s → ∀ x ∈ l, s ≤ x.startOffset) →
      List.Pairwise (fun r1 r2 => r1.rend ≤ r2.rstart) (buildIgnoreRangesGo l p) ∧
      (∀ r ∈ buildIgnoreRangesGo l p, r.rstart ≤ r.rend) ∧
      (∀ r ∈ buildIgnoreRangesGo l p,
        (∃ x ∈ l, x.startOffset ≤ r.rstart) ∨ (∃ s, p = some s ∧ s ≤ r.rstart)) := by
  intro l
  induction l with
  | nil =>
    intro p _ _ _
    refine ⟨List.Pairwise.nil, ?_, ?_⟩ <;> intro r hr <;> cases hr
  | cons c rest ih =>
    intro p hch hv hp
    have hvrest : ∀ x ∈ rest, x.startOffset ≤ x.endOffset :=
      fun y hy => hv y (List.mem_cons_of_mem c hy)
    have hchrest := hch.tail
    have hcall := tok_chain_all rest c hch hv
    by_cases hst : c.image = ignoreStartComment
    · have heq : buildIgnoreRangesGo (c :: rest) p =
          buildIgnoreRangesGo rest (some c.startOffset) := by
        simp only [buildIgnoreRangesGo]
        rw [if_pos hst]
      have hp' : ∀ s, (some c.startOffset : Option Nat) = some s →
          ∀ x ∈ rest, s ≤ x.startOffset := by
        intro s hs x hx
        cases hs
        have h1 := hv c (List.mem_cons_self c rest)
        have h2 := hcall x hx
        omega
      obtain ⟨ih1, ih2, ih3⟩ := ih (some c.startOffset) hchrest hvrest hp'
      rw [heq]
      refine ⟨ih1, ih2, ?_⟩
      intro r hr
      rcases ih3 r hr with ⟨x, hx, hxr⟩ | ⟨s, hs, hsr⟩
      · exact Or.inl ⟨x, List.mem_cons_of_mem c hx, hxr⟩
      · cases hs
        exact Or.inl ⟨c, List.mem_cons_self c rest, hsr⟩
    · cases p with
      | none =>
        have heq : buildIgnoreRangesGo (c :: rest) none =
            buildIgnoreRangesGo rest none := by
          simp only [buildIgnoreRangesGo]
          rw [if_neg hst]
        obtain ⟨ih1, ih2, ih3⟩ :=
          ih none hchrest hvrest (fun s hs => nomatch hs)
        rw [heq]
        refine ⟨ih1, ih2, ?_⟩
        intro r hr
        rcases ih3 r hr with ⟨x, hx, hxr⟩ | ⟨s, hs, _⟩
        · exact Or.inl ⟨x, List.mem_cons_of_mem c hx, hxr⟩
        · cases hs
      | some s0 =>
        by_cases hend : c.image = ignoreEndComment
        · have heq : buildIgnoreRangesGo (c :: rest) (some s0) =
              { rstart := s0, rend := c.endOffset } :: buildIgnoreRangesGo rest none := by
            simp only [buildIgnoreRangesGo]
            rw [if_neg hst]
            simp [hend]
          obtain ⟨ih1, ih2, ih3⟩ :=
            ih none hchrest hvrest (fun s hs => nomatch hs)
          rw [heq]
          refine ⟨?_, ?_, ?_⟩
          · refine List.pairwise_cons.mpr ⟨?_, ih1⟩
            intro r' hr'
            rcases ih3 r' hr' with ⟨x, hx, hxr⟩ | ⟨s, hs, _⟩
            · have := hcall x hx
              show c.endOffset ≤ r'.rstart
              omega
            · cases hs
          · intro r hr
            rcases List.mem_cons.mp hr with rfl | hr
            · have h1 := hp s0 rfl c (List.mem_cons_self c rest)
              have h2 := hv c (List.mem_cons_self c rest)
              show s0 ≤ c.endOffset
              omega
            · exact ih2 r hr
          · intro r hr
            rcases List.mem_cons.mp hr with rfl | hr
            · exact Or.inr ⟨s0, rfl, le_refl s0⟩
            · rcases ih3 r hr with ⟨x, hx, hxr⟩ | ⟨s, hs, _⟩
              · exact Or.inl ⟨x, List.mem_cons_of_mem c hx, hxr⟩
              · cases hs
        · have heq : buildIgnoreRangesGo (c :: rest) (some s0) =
              buildIgnoreRangesGo rest (some s0) := by
            simp only [buildIgnoreRangesGo]
            rw [if_neg hst]
            simp [hend]
          have hp' : ∀ s, (some s0 : Option Nat) = some s →
              ∀ x ∈ rest, s ≤ x.startOffset := by
            intro s hs x hx
            cases hs
            exact hp s0 rfl x (List.mem_cons_of_mem c hx)
          obtain ⟨ih1, ih2, ih3⟩ := ih (some s0) hchrest hvrest hp'
          rw [heq]
          refine ⟨ih1, ih2, ?_⟩
          intro r hr
          rcases ih3 r hr with ⟨x, hx, hxr⟩ | ⟨s, hs, hsr⟩
          · exact Or.inl ⟨x, List.mem_cons_of_mem c hx, hxr⟩
          · cases hs
            exact Or.inr ⟨s0, rfl, hsr⟩

/-- Claim C8: for lexer-produced comment tokens (sorted, pairwise disjoint,
each with start before end), the built ignore ranges are valid and pairwise
non-overlapping; an end sentinel with no open start produces nothing; an open
start with no following end sentinel yields no range; and a start sentinel is
paired with the next end sentinel. -/
theorem ignore_range_construction (comments : List CommentTok)
    (hch : List.Chain' (fun a b => a.endOffset ≤ b.startOffset) comments)
    (hv : ∀ x ∈ comments, x.startOffset ≤ x.endOffset) :
    (List.Pairwise (fun r1 r2 => r1.rend ≤ r2.rstart) (buildIgnoreRanges comments) ∧
     ∀ r ∈ buildIgnoreRanges comments, r.rstart ≤ r.rend) ∧
    (∀ (e : CommentTok) (l : List CommentTok), e.image = ignoreEndComment →
      buildIgnoreRangesGo (e :: l) none = buildIgnoreRangesGo l none) ∧
    (∀ (l : List CommentTok) (s : Nat), (∀ x ∈ l, x.image ≠ ignoreEndComment) →
      buildIgnoreRangesGo l (some s) = []) ∧
    (∀ (s e : CommentTok) (l : List CommentTok),
      s.image = ignoreStartComment → e.image = ignoreEndComment →
      buildIgnoreRangesGo (s :: e :: l) none =
        { rstart := s.startOffset, rend := e.endOffset } :: buildIgnoreRangesGo l none) := by
  refine ⟨?_, ?_, ?_, ?_⟩
  · have hsorted := chain_start_sorted comments hch hv
    rw [buildIgnoreRanges, sortByStartOffset_sorted_id comments hsorted]
    obtain ⟨h1, h2, _⟩ :=
      buildIgnoreRangesGo_sound comments none hch hv (fun s hs => nomatch hs)
    exact ⟨h1, h2⟩
  · intro e l he
    have hne : ¬e.image = ignoreStartComment := by
      rw [he]
      decide
    simp only [buildIgnoreRangesGo]
    rw [if_neg hne]
  · intro l
    induction l with
    | nil => intro s _; rfl
    | cons c t ih =>
      intro s hno
      by_cases hst : c.image = ignoreStartComment
      · have heq : buildIgnoreRangesGo (c :: t) (some s) =
            buildIgnoreRangesGo t (some c.startOffset) := by
          simp only [buildIgnoreRangesGo]
          rw [if_pos hst]
        rw [heq]
        exact ih c.startOffset (fun y hy => hno y (List.mem_cons_of_mem c hy))
      · have hend : ¬c.image = ignoreEndComment := hno c (List.mem_cons_self c t)
        have heq : buildIgnoreRangesGo (c :: t) (some s) =
            buildIgnoreRangesGo t (some s) := by
          simp only [buildIgnoreRangesGo]
          rw [if_neg hst]
          simp [hend]
        rw [heq]
        exact ih s (fun y hy => hno y (List.mem_cons_of_mem c hy))
  · intro s e l hs he
    have hne : ¬e.image = ignoreStartComment := by
      rw [he]
      decide
    have h1 : buildIgnoreRangesGo (s :: e :: l) none =
        buildIgnoreRangesGo (e :: l) (some s.startOffset) := by
      simp only [buildIgnoreRangesGo]
      rw [if_pos hs]
    rw [h1]
    simp only [buildIgnoreRangesGo]
    rw [if_neg hne]
    simp [he]

/-- Witness for C8 at a concrete two-sentinel token list. -/
theorem ignore_range_construction_witness :
    List.Chain' (fun a b => a.endOffset ≤ b.startOffset) [sampleStartTok, sampleEndTok] ∧
    (∀ x ∈ [sampleStartTok, sampleEndTok], x.startOffset ≤ x.endOffset) ∧
    (List.Pairwise (fun r1 r2 => r1.rend ≤ r2.rstart)
        (buildIgnoreRanges [sampleStartTok, sampleEndTok]) ∧
     ∀ r ∈ buildIgnoreRanges [sampleStartTok, sampleEndTok], r.rstart ≤ r.rend) :=
  ⟨by simp [List.chain'_cons, sampleStartTok, sampleEndTok], by decide,
   (ignore_range_construction [sampleStartTok, sampleEndTok]
      (by simp [List.chain'_cons, sampleStartTok, sampleEndTok]) (by decide)).1⟩
